import Mathlib

/-!
Verification development for the anitrack-cli reconciliation/session engine.

The Rust sources are shallowly embedded as executable Lean definitions:

* `src/app/tracking/history.rs` — ledger parsing and change detection;
* `src/app/episode.rs` — episode navigation planning (the Rust code uses
  `f64` for episode values; those values are modelled here as exact
  rationals, and the non-finite literals `inf`/`nan` are treated as
  unparseable, which produces the same results for every function that is
  verified below);
* `src/app/tracking/process.rs` — the interactive session controller,
  modelled as a pure function over an environment record that describes the
  outcome of each OS interaction the controller may perform;
* `src/app/tracking/playback.rs` and `src/app/tui/actions.rs` — the
  progress-store write decisions, modelled the same way.

Definitions translated from the Rust sources keep the source names.
Definitions whose names end in `_spec` are written from the specification
text and are compared with the source translations by theorems.
-/

set_option autoImplicit false

namespace AniTrack

/-! ## Data model (`src/app/tracking/mod.rs`) -/

/-- One parsed ledger line: `ep TAB id TAB title` (struct `HistEntry`). -/
structure HistEntry where
  ep : String
  id : String
  title : String
deriving DecidableEq, Repr

/-- File signature `(byte length, mtime in ns)` (struct `HistFileSig`). -/
structure HistFileSig where
  len : Nat
  modified_ns : Nat
deriving DecidableEq, Repr

/-- The `HashMap<String, HistEntry>` of a snapshot, modelled as a lookup
function from show id to entry. -/
def HistMap : Type := String → Option HistEntry

/-- Lookup map produced by inserting the entries of a list in order, the
later entries overwriting the earlier ones, exactly as `parse_hist_map`
populates its `HashMap` with `map.insert(entry.id, entry)`. The head of the
list is the oldest line, so the entries of the tail take precedence. -/
def histIndex : List HistEntry → HistMap
  | [], _ => none
  | e :: rest, i =>
    match histIndex rest i with
    | some x => some x
    | none => if e.id = i then some e else none

/-! ## Change detection (`src/app/tracking/history.rs`) -/

/-- Membership test of an id in the set of already visited ids, modelling
`HashSet<&str>::contains` / a failed `insert`. -/
def memStr (i : String) (seen : List String) : Bool :=
  seen.any (fun s => decide (s = i))

/-- The shared test of the two detection loops: the entry's show id is not
in the `before` map, or the recorded entry differs in `ep` or `title`
(the `match before.get(&current.id)` arms of the Rust loops). -/
def entry_is_new_or_differs (before : HistMap) (current : HistEntry) : Bool :=
  match before current.id with
  | none => true
  | some prev => decide (prev.ep ≠ current.ep ∨ prev.title ≠ current.title)

/-- Inner loop of `added_entries`: walk `after_ordered` consuming remaining
positive counts of the `before` multiset; unmatched entries are added, in
order. -/
def added_entries_go (counts : HistEntry → Nat) : List HistEntry → List HistEntry
  | [] => []
  | entry :: rest =>
    if 0 < counts entry then
      added_entries_go (fun e => if e = entry then counts e - 1 else counts e) rest
    else
      entry :: added_entries_go counts rest

/-- Order-preserving multiset difference `after minus before`
(`added_entries` in `history.rs`). -/
def added_entries (before_ordered after_ordered : List HistEntry) : List HistEntry :=
  added_entries_go (fun e => before_ordered.count e) after_ordered

/-- The `for current in added.iter().rev()` loop of
`detect_latest_added_entry`, with the early returns expressed as a
recursion over the reversed list. -/
def detect_added_loop (before : HistMap) : List HistEntry → Option HistEntry
  | [] => none
  | current :: rest =>
    if entry_is_new_or_differs before current then some current
    else detect_added_loop before rest

/-- `detect_latest_added_entry` from `history.rs`: among the added entries,
prefer the newest meaningful one scanning backward; if all added entries
duplicate their prior state, fall back to the newest added entry. -/
def detect_latest_added_entry (before : HistMap)
    (before_ordered after_ordered : List HistEntry) : Option HistEntry :=
  let added := added_entries before_ordered after_ordered
  if added.isEmpty then none
  else
    match detect_added_loop before added.reverse with
    | some e => some e
    | none => added.getLast?

/-- The `for current in after_ordered.iter().rev()` loop of
`detect_changed_latest` with its `seen_ids` set. In the Rust loop the id is
inserted into the set before the entry is inspected; since the loop returns
as soon as an inspected entry differs, inserting only on the non-returning
path is observationally identical. -/
def detect_changed_loop (before : HistMap) (seen : List String) :
    List HistEntry → Option HistEntry
  | [] => none
  | current :: rest =>
    if memStr current.id seen then detect_changed_loop before seen rest
    else if entry_is_new_or_differs before current then some current
    else detect_changed_loop before (current.id :: seen) rest

/-- `detect_changed_latest` from `history.rs`. -/
def detect_changed_latest (before : HistMap) (after_ordered : List HistEntry) :
    Option HistEntry :=
  detect_changed_loop before [] after_ordered.reverse

/-- `detect_latest_watch_event` from `history.rs`: added-entry detection,
with `detect_changed_latest` as the `or_else` fallback. -/
def detect_latest_watch_event (before : HistMap)
    (before_ordered after_ordered : List HistEntry) : Option HistEntry :=
  match detect_latest_added_entry before before_ordered after_ordered with
  | some e => some e
  | none => detect_changed_latest before after_ordered

/-- `history_file_touched` from `history.rs`: `before != after` on the
optional signatures. -/
def history_file_touched (before after : Option HistFileSig) : Bool :=
  decide (before ≠ after)

/-! ## Structural string primitives

The Rust sources use `str::trim`, `str::splitn`, `str::split_whitespace`
and friends. The corresponding Lean core functions are compiled by
well-founded recursion and do not reduce definitionally, so the models
below re-implement them structurally over the character list of the
string; each is a direct model of the Rust function named in its comment.
`Char.isWhitespace` covers the ASCII subset of the Unicode White_Space set
the Rust functions strip; on every character that reaches these functions
in the verified claims the two sets agree. -/

/-- Model of `str::trim`: drop whitespace from both ends. -/
def rust_trim (s : String) : String :=
  String.mk (((s.data.dropWhile Char.isWhitespace).reverse.dropWhile
    Char.isWhitespace).reverse)

/-- Model of `str::is_empty`. -/
def str_is_empty (s : String) : Bool :=
  s.data.isEmpty

/-- Model of `str::contains(char)`. -/
def contains_char (s : String) (c : Char) : Bool :=
  s.data.contains c

/-- Split a character list at the first occurrence of `c`; none when `c`
does not occur. -/
def break_at_char (c : Char) : List Char → Option (List Char × List Char)
  | [] => none
  | x :: rest =>
    if x = c then some ([], rest)
    else (break_at_char c rest).map (fun p => (x :: p.1, p.2))

/-! ## System-log correlation keys (`src/app/tracking/history.rs`) -/

/-- Test for `char::is_ascii_punctuation` (the four ASCII punctuation
ranges). -/
def is_ascii_punctuation (c : Char) : Bool :=
  let n := c.toNat
  (0x21 ≤ n && n ≤ 0x2F) || (0x3A ≤ n && n ≤ 0x40) ||
    (0x5B ≤ n && n ≤ 0x60) || (0x7B ≤ n && n ≤ 0x7E)

/-- Worker of `split_whitespace`, carrying the reversed current token. -/
def split_ws_go (acc : List Char) : List Char → List String
  | [] => if acc.isEmpty then [] else [String.mk acc.reverse]
  | c :: rest =>
    if Char.isWhitespace c then
      if acc.isEmpty then split_ws_go [] rest
      else String.mk acc.reverse :: split_ws_go [] rest
    else split_ws_go (c :: acc) rest

/-- Tokenisation on whitespace discarding empty tokens, modelling
`str::split_whitespace`. -/
def split_whitespace (s : String) : List String :=
  split_ws_go [] s.data

/-- `normalize_log_key` from `history.rs`: drop ASCII punctuation, then
collapse whitespace runs into single spaces. -/
def normalize_log_key (raw : String) : String :=
  String.intercalate " "
    (split_whitespace (String.mk (raw.data.filter (fun ch => !is_ascii_punctuation ch))))

/-- `ani_cli_log_key` from `history.rs`: normalised
`title-before-paren ++ " " ++ episode` key. -/
def ani_cli_log_key (title episode : String) : String :=
  let title_head := ((title.splitOn "(").headD title)
  normalize_log_key (title_head ++ " " ++ rust_trim episode)

/-- `detect_log_matched_entry` from `history.rs`: newest `after` entry whose
key equals the normalised log message. -/
def detect_log_matched_entry (message : String) (after_ordered : List HistEntry) :
    Option HistEntry :=
  let target := normalize_log_key message
  after_ordered.reverse.find? (fun entry => ani_cli_log_key entry.title entry.ep == target)

/-! ## Ledger parsing (`src/app/tracking/history.rs`) -/

/-- First three pieces of `str::splitn(3, TAB)`: at most three parts, the
third keeping any further tabs. -/
def splitn3_tab (s : String) : List String :=
  match break_at_char '\t' s.data with
  | none => [s]
  | some (a, rest1) =>
    match break_at_char '\t' rest1 with
    | none => [String.mk a, String.mk rest1]
    | some (b, rest2) => [String.mk a, String.mk b, String.mk rest2]

/-- `parse_hist_line` from `history.rs`. -/
def parse_hist_line (line : String) : Option HistEntry :=
  let trimmed := rust_trim line
  if str_is_empty trimmed then none
  else if contains_char trimmed '\t' then
    match splitn3_tab trimmed with
    | [ep0, id0, title0] =>
      let ep := rust_trim ep0
      let i := rust_trim id0
      let title := rust_trim title0
      if str_is_empty ep || str_is_empty i || str_is_empty title then none
      else some ⟨ep, i, title⟩
    | _ => none
  else
    match split_whitespace trimmed with
    | ep :: i :: restTokens =>
      let title := String.intercalate " " restTokens
      if str_is_empty ep || str_is_empty i || str_is_empty (rust_trim title) then none
      else some ⟨ep, i, rust_trim title⟩
    | _ => none

/-- Strip one trailing carriage return, as `str::lines` does for CRLF
endings. -/
def strip_cr (s : String) : String :=
  if s.endsWith "\r" then s.dropRight 1 else s

/-- Model of `str::lines`: split on newline, drop the optional final empty
segment, strip one trailing carriage return per line. (Rust keeps a lone
carriage return at the very end of the text; every use trims the line
before inspecting it, so the difference is unobservable here.) -/
def rust_lines (raw : String) : List String :=
  let parts := raw.splitOn "\n"
  let parts := if parts.getLast? = some "" then parts.dropLast else parts
  parts.map strip_cr

/-- The `for line in raw.lines()` loop of `parse_hist_map`, yielding the
ordered entries (file order) and the skipped-line counter. -/
def parse_hist_lines : List String → List HistEntry × Nat
  | [] => ([], 0)
  | line :: rest =>
    let acc := parse_hist_lines rest
    match parse_hist_line line with
    | some entry => (entry :: acc.1, acc.2)
    | none => if str_is_empty (rust_trim line) then acc else (acc.1, acc.2 + 1)

/-- Result triple of `parse_hist_map`. -/
structure HistParseResult where
  by_id : HistMap
  ordered_entries : List HistEntry
  skipped_lines : Nat

/-- `parse_hist_map` from `history.rs`. The `HashMap` built by in-order
`insert` equals the last-occurrence index of the ordered entries, which
`histIndex` computes. -/
def parse_hist_map (raw : String) : HistParseResult :=
  let parsed := parse_hist_lines (rust_lines raw)
  ⟨histIndex parsed.1, parsed.1, parsed.2⟩

/-! ## Episode navigation (`src/app/episode.rs`)

The Rust code parses episode labels with `str::parse::<f64>` and compares
them with a `1e-6` tolerance. Those values are modelled as exact rationals:
on every label whose magnitude stays far below `2^53` the double arithmetic
of the source is exact for the operations used here, so the models below
agree with the source. The non-finite literals accepted by the Rust parser
(`inf`, `infinity`, `nan`) are modelled as parse failures; tracing the
source shows each verified function maps them to the same result. -/

/-- Value of a digit run, most significant first. -/
def digits_to_nat (ds : List Char) : Nat :=
  ds.foldl (fun acc c => acc * 10 + (c.toNat - 48)) 0

/-- Optional exponent suffix of a float literal: empty input keeps the
mantissa, otherwise `e`/`E`, an optional sign and a digit run must consume
the whole rest. -/
def parse_exp_part (mant : ℚ) : List Char → Option ℚ
  | [] => some mant
  | c :: rest =>
    if c = 'e' ∨ c = 'E' then
      let signed : Bool × List Char :=
        match rest with
        | '+' :: r => (false, r)
        | '-' :: r => (true, r)
        | r => (false, r)
      let ds := signed.2.takeWhile Char.isDigit
      let rest2 := signed.2.dropWhile Char.isDigit
      if ds.isEmpty || !rest2.isEmpty then none
      else if signed.1 then some (mant / (10 ^ digits_to_nat ds : ℚ))
      else some (mant * (10 ^ digits_to_nat ds : ℚ))
    else none

/-- Finite-literal grammar of `str::parse::<f64>`: optional sign, digits
with an optional point (at least one digit overall), optional exponent. -/
def parse_rat_core (cs : List Char) : Option ℚ :=
  let signed : Bool × List Char :=
    match cs with
    | '+' :: r => (false, r)
    | '-' :: r => (true, r)
    | r => (false, r)
  let intDs := signed.2.takeWhile Char.isDigit
  let afterInt := signed.2.dropWhile Char.isDigit
  let core : Option ℚ :=
    match afterInt with
    | '.' :: rest =>
      let fracDs := rest.takeWhile Char.isDigit
      let rest2 := rest.dropWhile Char.isDigit
      if intDs.isEmpty && fracDs.isEmpty then none
      else
        parse_exp_part
          ((digits_to_nat intDs : ℚ) + (digits_to_nat fracDs : ℚ) / (10 ^ fracDs.length : ℚ))
          rest2
    | rest =>
      if intDs.isEmpty then none
      else parse_exp_part (digits_to_nat intDs : ℚ) rest
  match core with
  | none => none
  | some q => if signed.1 then some (-q) else some q

/-- `parse_episode_f64` from `episode.rs`: trim, then parse as a number. -/
def parse_episode_f64 (ep : String) : Option ℚ :=
  parse_rat_core (rust_trim ep).data

/-- Grammar of `str::parse::<u32>`: optional plus sign, a digit run, value
below `2 ^ 32`. -/
def parse_u32 (s : String) : Option Nat :=
  let cs : List Char :=
    match s.data with
    | '+' :: rest => rest
    | cs => cs
  if cs.isEmpty then none
  else if !cs.all Char.isDigit then none
  else
    let n := digits_to_nat cs
    if n < 4294967296 then some n else none

/-- `parse_episode_u32` from `episode.rs`. -/
def parse_episode_u32 (ep : String) : Option Nat :=
  parse_u32 (rust_trim ep)

/-- The `0.000_001` tolerance of `episode.rs`. -/
def f64_tolerance : ℚ := 1 / 1000000

/-- `episode_labels_match` from `episode.rs`: equal as trimmed strings, or
both numeric and closer than the tolerance. -/
def episode_labels_match (a b : String) : Bool :=
  let left := rust_trim a
  let right := rust_trim b
  if left = right then true
  else
    match parse_episode_f64 left, parse_episode_f64 right with
    | some x, some y => decide (|x - y| < f64_tolerance)
    | _, _ => false

/-- `is_effective_integer` from `episode.rs`. The Rust `f64::round` rounds
halves away from zero while `round` on `ℚ` rounds halves up; the two agree
on nonnegative arguments, and at a negative half-integer both make this
predicate false, so the predicate is unchanged. -/
def is_effective_integer (value : ℚ) : Bool :=
  decide (|value - ((round value : ℤ) : ℚ)| < f64_tolerance)

/-- `integer_episode_label` from `episode.rs`. The finiteness test of the
source cannot fail on `ℚ`; the `as i64` cast is the identity on every
value a ledger label can round to. -/
def integer_episode_label (value : ℚ) : Option String :=
  if value < 0 then none
  else
    let rounded : ℚ := ((round value : ℤ) : ℚ)
    if !is_effective_integer rounded then none
    else some (toString (round value : ℤ))

/-- The `episodes.iter().position(..)` call shared by the navigation
functions: index of the first catalog entry matching the label. -/
def episode_position (episodes : List String) (last_episode : String) : Option Nat :=
  episodes.findIdx? (fun episode => episode_labels_match episode last_episode)

/-- `episode_ordinal_from_list` from `episode.rs`: 1-based ordinal. -/
def episode_ordinal_from_list (last_episode : String) (episodes : List String) :
    Option Nat :=
  (episode_position episodes last_episode).map (fun idx => idx + 1)

/-- Catalog branch guard shared by the navigation functions: the Rust
`if let Some(episodes) = episode_list && let Some(idx) = position(..)`
chain, which falls through to the numeric branch when either binding
fails. -/
def catalog_match (episode_list : Option (List String)) (last_episode : String) :
    Option (List String × Nat) :=
  episode_list.bind (fun episodes =>
    (episode_position episodes last_episode).map (fun idx => (episodes, idx)))

/-- `previous_target_episode` from `episode.rs`. -/
def previous_target_episode (last_episode : String)
    (episode_list : Option (List String)) : Option String :=
  match catalog_match episode_list last_episode with
  | some (episodes, idx) =>
    if 0 < idx then episodes[idx - 1]? else none
  | none =>
    match parse_episode_f64 last_episode with
    | none => none
    | some current =>
      if current ≤ 0 then none
      else if is_effective_integer current then integer_episode_label (current - 1)
      else integer_episode_label ((⌊current⌋ : ℤ) : ℚ)

/-- `previous_seed_episode` from `episode.rs`. Note that the numeric branch
recomputes the target with no catalog, exactly as the source passes `None`
there. -/
def previous_seed_episode (last_episode : String)
    (episode_list : Option (List String)) : Option String :=
  match catalog_match episode_list last_episode with
  | some (episodes, idx) =>
    if 1 < idx then episodes[idx - 2]? else none
  | none =>
    match previous_target_episode last_episode none with
    | none => none
    | some target =>
      match parse_episode_f64 target with
      | none => none
      | some target_value =>
        if 1 < target_value then integer_episode_label (target_value - 1) else none

/-- `has_next_episode` from `episode.rs`. -/
def has_next_episode (last_episode : String) (total_episodes : Option Nat)
    (episode_list : Option (List String)) : Bool :=
  match catalog_match episode_list last_episode with
  | some (episodes, idx) => decide (idx + 1 < episodes.length)
  | none =>
    match total_episodes, parse_episode_u32 last_episode with
    | some total, some current => decide (current < total)
    | _, _ => true

/-! ## Playback session controller (`src/app/tracking/process.rs`)

The controller performs a fixed sequence of OS interactions. Each
interaction outcome is a field of an environment record, and
`run_interactive_cmd` is the pure function from that record to the
observable behaviour: the returned result, whether a child process was
spawned, and whether a terminal foreground handoff was attempted. -/

/-- Exit status of the child, reduced to its observed success bit. -/
structure ExitStatusM where
  success : Bool
deriving DecidableEq, Repr

/-- Outcomes of the OS interactions `run_interactive_cmd` may perform, in
the order the source performs them. `tcgetpgrp_pgrp` is `-1` when the
foreground process group cannot be determined. `status_result` is the
outcome of a plain `cmd.status()` call (spawn plus synchronous wait):
an error models a launch failure, in which case no child ran. -/
structure SessionEnv where
  tcgetpgrp_pgrp : Int
  sigttou_install_ok : Bool
  status_result : Except String ExitStatusM
  spawn_ok : Bool
  wait_result : Except String ExitStatusM

/-- Observable behaviour of one `run_interactive_cmd` invocation. -/
structure SessionTrace where
  result : Except String ExitStatusM
  child_spawned : Bool
  handoff_attempted : Bool

/-- The `cmd.status().context("failed to launch ani-cli")` expression,
shared by the degraded branch of the Unix variant and by the non-Unix
variant. -/
def run_plain_status (env : SessionEnv) : Except String ExitStatusM :=
  match env.status_result with
  | .ok s => .ok s
  | .error e => .error ("failed to launch ani-cli: " ++ e)

/-- `run_interactive_cmd` (Unix variant) from `process.rs`: query the
foreground process group; on failure run a plain synchronous `status`;
otherwise install the SIGTTOU guard, spawn the configured child, hand the
terminal over and wait. -/
def run_interactive_cmd (env : SessionEnv) : SessionTrace :=
  if env.tcgetpgrp_pgrp = -1 then
    { result := run_plain_status env
      child_spawned := match env.status_result with | .ok _ => true | .error _ => false
      handoff_attempted := false }
  else if !env.sigttou_install_ok then
    { result := .error "failed to update signal action for SIGTTOU"
      child_spawned := false
      handoff_attempted := false }
  else if !env.spawn_ok then
    { result := .error "failed to spawn ani-cli"
      child_spawned := false
      handoff_attempted := false }
  else
    { result :=
        match env.wait_result with
        | .ok s => .ok s
        | .error e => .error ("failed waiting on ani-cli: " ++ e)
      child_spawned := true
      handoff_attempted := true }

/-! ## Progress-store writes (`src/app/tui/actions.rs`,
`src/app/tracking/playback.rs`)

The write decisions are modelled as pure functions from the playback
results to the optional row written to the store. The store itself is
external; a successful `upsert_seen` call is recorded as the
`Option UpsertRecord` component of the result. -/

/-- `PlaybackOutcome` from `tracking/mod.rs` (the fields the decision
logic reads). -/
structure PlaybackOutcome where
  success : Bool
  final_episode : Option String
deriving DecidableEq, Repr

/-- Arguments of one `db.upsert_seen(id, title, episode)` call. -/
structure UpsertRecord where
  ani_id : String
  title : String
  last_episode : String
deriving DecidableEq, Repr

/-- `TuiAction` variants handled by `run_selected_action`. -/
inductive TuiAction
  | next
  | replay
  | previous
  | select
deriving DecidableEq, Repr

/-- `SeenEntry` from `db.rs`. -/
structure SeenEntry where
  ani_id : String
  title : String
  last_episode : String
  last_seen_at : String
deriving DecidableEq, Repr

/-- Status line built by the success arm of each action. -/
def action_success_message (action : TuiAction) (item : SeenEntry)
    (updated_ep : String) : String :=
  match action with
  | .next => "Updated progress: " ++ item.title ++ " -> episode " ++ updated_ep
  | .replay => "Replay finished: " ++ item.title ++ " now on episode " ++ updated_ep
  | .previous => "Previous finished: " ++ item.title ++ " now on episode " ++ updated_ep
  | .select => "Select finished: " ++ item.title ++ " now on episode " ++ updated_ep

/-- `run_selected_action` from `tui/actions.rs`, parameterised by the
result of the playback call the chosen arm makes (`run_ani_cli_continue`,
`run_ani_cli_replay`, `run_ani_cli_previous` or `run_ani_cli_select`); an
`Except.error` models the `?` propagation of a failed call. All four arms
share this shape; only the success message differs. The store write is
modelled as always succeeding. -/
def run_selected_action (item : SeenEntry) (action : TuiAction)
    (outcome : Except String PlaybackOutcome) :
    Except String (String × Option UpsertRecord) :=
  match outcome with
  | .error e => .error e
  | .ok o =>
    if o.success then
      let updated_ep := o.final_episode.getD item.last_episode
      .ok (action_success_message action item updated_ep,
        some ⟨item.ani_id, item.title, updated_ep⟩)
    else
      .ok ("Playback failed/interrupted. Progress not updated.", none)

/-- Inputs of one `run_ani_cli_search` invocation: the bracketing snapshot
reads, the result of the supervised interactive run (`Except.error` models
a spawn or wait failure surfaced by `run_interactive_cmd`), and the result
of the system-log fallback query together with its optional warning. -/
structure SearchEnv where
  before_sig : Option HistFileSig
  before_ordered : List HistEntry
  before_warnings : List String
  run_result : Except String ExitStatusM
  after_ordered : List HistEntry
  after_warnings : List String
  after_sig : Option HistFileSig
  log_entry : Option HistEntry
  log_warning : Option String

/-- `append_history_warnings` from `history.rs`. -/
def append_history_warnings (message : String) (warnings : List String) : String :=
  warnings.foldl (fun msg w => msg ++ "\nWarning: " ++ w) message

/-- `run_ani_cli_search` from `playback.rs`: the status message and the
optional store write of the umbrella interactive search action. The
before map is the last-occurrence index of the before snapshot, exactly
as `read_hist_map` builds it. The log fallback and its warning are
consulted only when the snapshot diff finds nothing, mirroring the
`or_else` closure. -/
def run_ani_cli_search (env : SearchEnv) : String × Option UpsertRecord :=
  let before := histIndex env.before_ordered
  match env.run_result with
  | .error err =>
    (append_history_warnings
      ("ani-cli failed to start: " ++ err ++ ". Progress unchanged.")
      env.before_warnings, none)
  | .ok status =>
    let primary := detect_latest_watch_event before env.before_ordered env.after_ordered
    let changedAndLogWs : Option HistEntry × List String :=
      match primary with
      | some e => (some e, [])
      | none => (env.log_entry, env.log_warning.toList)
    let warnings := env.before_warnings ++ env.after_warnings ++ changedAndLogWs.2
    let base : String × Option UpsertRecord :=
      match changedAndLogWs.1 with
      | some changed =>
        ("Recorded last seen: " ++ changed.title ++ " | episode " ++ changed.ep,
          some ⟨changed.id, changed.title, changed.ep⟩)
      | none =>
        if history_file_touched env.before_sig env.after_sig
            && decide (env.before_ordered ≠ env.after_ordered) then
          ("History changed but no parseable watch entry was detected from this run.",
            none)
        else
          ("No new history entry detected from this run.", none)
    let message :=
      if !status.success then base.1 ++ "\nani-cli exited with nonzero status"
      else base.1
    (append_history_warnings message warnings, base.2)

/-! ## Specification-side definitions

The following definitions are written from the wording of the
specification and of the claims, to be compared with the source
translations above. -/

/-- Claim wording: the entry's show_id is absent from the before by-id map,
or the `(episode, title)` pair differs from what that map records. -/
def spec_absent_or_pair_differs (before : HistMap) (e : HistEntry) : Bool :=
  decide (before e.id = none
    ∨ Option.map (fun p => (p.ep, p.title)) (before e.id) ≠ some (e.ep, e.title))

/-- Claim wording for added-entry selection: scan the added list from the
end backward for the first entry that is new or differs; if none, take the
last added entry. -/
def latest_added_spec (before : HistMap) (added : List HistEntry) : Option HistEntry :=
  match added.reverse.find? (spec_absent_or_pair_differs before) with
  | some e => some e
  | none => added.getLast?

/-- First occurrence of each show id, in list order: the entries a scan
that skips already visited show_ids actually inspects. -/
def dedup_first_by_id : List HistEntry → List HistEntry
  | [] => []
  | e :: rest => e :: dedup_first_by_id (rest.filter (fun x => decide (x.id ≠ e.id)))
termination_by l => l.length
decreasing_by
  simp only [List.length_cons]
  exact Nat.lt_succ_of_le (List.length_filter_le _ _)

/-- Claim wording for the changed-latest fallback: scan the after entries
from the end backward, skipping show_ids already visited, and return the
first entry whose recorded state is absent or different. -/
def changed_latest_spec (before : HistMap) (after_ordered : List HistEntry) :
    Option HistEntry :=
  (dedup_first_by_id after_ordered.reverse).find? (spec_absent_or_pair_differs before)

/-- Claim wording for `previous_target`: with a catalog match at 1-based
ordinal `n`, entry `n - 2` (0-based) when `n > 1`, else none; without a
match, for a value within the tolerance of an integer the result is that
integer minus one when the value is at least 1 (none below 1), for a
non-integer value its floor, and none for non-numeric or nonpositive
labels. -/
def previous_target_spec (last_episode : String)
    (episode_list : Option (List String)) : Option String :=
  match episode_list.bind (fun eps =>
      (episode_ordinal_from_list last_episode eps).map (fun n => (eps, n))) with
  | some (episodes, n) => if 1 < n then episodes[n - 2]? else none
  | none =>
    match parse_episode_f64 last_episode with
    | none => none
    | some q =>
      if q ≤ 0 then none
      else if |q - ((round q : ℤ) : ℚ)| < f64_tolerance then
        if 1 ≤ q then some (toString ((round q : ℤ) - 1)) else none
      else some (toString (⌊q⌋ : ℤ))

/-- Claim wording for `previous_seed`: with a catalog match at 1-based
ordinal `n`, entry `n - 3` (0-based) when `n > 2`, else none; without a
match, the integer value of `previous_target` minus one when that value
exceeds 1, else none. -/
def previous_seed_spec (last_episode : String)
    (episode_list : Option (List String)) : Option String :=
  match episode_list.bind (fun eps =>
      (episode_ordinal_from_list last_episode eps).map (fun n => (eps, n))) with
  | some (episodes, n) => if 2 < n then episodes[n - 3]? else none
  | none =>
    match (previous_target_episode last_episode none).bind parse_episode_f64 with
    | none => none
    | some tv => if 1 < tv then some (toString ((round tv : ℤ) - 1)) else none

/-- Claim wording for `has_next`: with a catalog match at 1-based ordinal
`n`, a next catalog index exists; without a match, parsed integer label
below the total hint, defaulting to true when either is unknown. -/
def has_next_spec (last_episode : String) (total_episodes : Option Nat)
    (episode_list : Option (List String)) : Bool :=
  match episode_list.bind (fun eps =>
      (episode_ordinal_from_list last_episode eps).map (fun n => (eps, n))) with
  | some (episodes, n) => decide (n < episodes.length)
  | none =>
    match total_episodes, parse_episode_u32 last_episode with
    | some total, some current => decide (current < total)
    | _, _ => true

/-! ## Helper lemmas -/

theorem entry_pred_eq_spec (before : HistMap) (e : HistEntry) :
    entry_is_new_or_differs before e = spec_absent_or_pair_differs before e := by
  unfold entry_is_new_or_differs spec_absent_or_pair_differs
  cases h : before e.id with
  | none => simp [h]
  | some prev =>
    simp only [h, Option.map_some']
    rw [decide_eq_decide]
    simp [Prod.ext_iff]
    tauto

theorem detect_added_loop_eq (before : HistMap) (l : List HistEntry) :
    detect_added_loop before l = l.find? (spec_absent_or_pair_differs before) := by
  induction l with
  | nil => rfl
  | cons current rest ih =>
    cases h : spec_absent_or_pair_differs before current with
    | true =>
      have h2 : entry_is_new_or_differs before current = true := by
        rw [entry_pred_eq_spec]; exact h
      rw [detect_added_loop, if_pos h2, List.find?_cons_of_pos rest h]
    | false =>
      have h2 : entry_is_new_or_differs before current = false := by
        rw [entry_pred_eq_spec]; exact h
      rw [detect_added_loop, if_neg (by simp [h2]), ih,
        List.find?_cons_of_neg rest (by simp [h])]

theorem memStr_cons (i x : String) (seen : List String) :
    memStr i (x :: seen) = (decide (x = i) || memStr i seen) := by
  simp [memStr, List.any_cons]

theorem dedup_first_cons (e : HistEntry) (rest : List HistEntry) :
    dedup_first_by_id (e :: rest)
      = e :: dedup_first_by_id (rest.filter (fun x => decide (x.id ≠ e.id))) := by
  rw [dedup_first_by_id]

theorem dedup_first_nil : dedup_first_by_id [] = [] := by
  rw [dedup_first_by_id]

theorem detect_changed_loop_eq (before : HistMap) :
    ∀ (m : List HistEntry) (seen : List String),
      detect_changed_loop before seen m =
        (dedup_first_by_id (m.filter (fun e => !memStr e.id seen))).find?
          (spec_absent_or_pair_differs before) := by
  intro m
  induction m with
  | nil => intro seen; rw [List.filter_nil, dedup_first_nil]; rfl
  | cons current rest ih =>
    intro seen
    cases hseen : memStr current.id seen with
    | true =>
      have hp : ¬((fun e : HistEntry => !memStr e.id seen) current = true) := by
        simp [hseen]
      rw [detect_changed_loop, if_pos hseen, ih seen,
        @List.filter_cons_of_neg _ (fun e : HistEntry => !memStr e.id seen) current rest hp]
    | false =>
      have hp : (fun e : HistEntry => !memStr e.id seen) current = true := by
        simp [hseen]
      rw [detect_changed_loop, if_neg (by simp [hseen]),
        @List.filter_cons_of_pos _ (fun e : HistEntry => !memStr e.id seen) current rest hp,
        dedup_first_cons]
      cases h : spec_absent_or_pair_differs before current with
      | true =>
        have h2 : entry_is_new_or_differs before current = true := by
          rw [entry_pred_eq_spec]; exact h
        rw [if_pos h2, List.find?_cons_of_pos _ h]
      | false =>
        have h2 : entry_is_new_or_differs before current = false := by
          rw [entry_pred_eq_spec]; exact h
        rw [if_neg (by simp [h2]), ih (current.id :: seen),
          List.find?_cons_of_neg _ (by simp [h])]
        congr 2
        rw [List.filter_filter]
        apply List.filter_congr
        intro x _
        rw [memStr_cons]
        by_cases hx : x.id = current.id
        · simp [hx]
        · have hx2 : ¬(current.id = x.id) := fun hh => hx hh.symm
          simp [hx, hx2]

theorem find?_filter_of_imp {α : Type} (p q : α → Bool) (l : List α)
    (h : ∀ x, p x = true → q x = true) :
    (l.filter q).find? p = l.find? p := by
  induction l with
  | nil => rfl
  | cons a l ih =>
    cases hq : q a with
    | true =>
      rw [@List.filter_cons_of_pos _ q a l hq]
      cases hp : p a with
      | true => rw [List.find?_cons_of_pos _ hp, List.find?_cons_of_pos _ hp]
      | false =>
        rw [List.find?_cons_of_neg _ (by simp [hp]),
          List.find?_cons_of_neg _ (by simp [hp]), ih]
    | false =>
      have hpa : ¬(p a = true) := fun hp => by rw [h a hp] at hq; cases hq
      rw [@List.filter_cons_of_neg _ q a l (by simp [hq]), ih,
        List.find?_cons_of_neg _ hpa]

theorem dedup_first_subset (m : List HistEntry) : dedup_first_by_id m ⊆ m := by
  induction m using dedup_first_by_id.induct with
  | case1 => rw [dedup_first_nil]; exact fun x hx => hx
  | case2 e rest ih =>
    rw [dedup_first_cons]
    intro x hx
    cases List.mem_cons.mp hx with
    | inl h => exact h ▸ List.mem_cons_self e rest
    | inr h => exact List.mem_cons_of_mem e (List.mem_of_mem_filter (ih h))

theorem mem_dedup_first_find (m : List HistEntry) (x : HistEntry)
    (hx : x ∈ dedup_first_by_id m) :
    m.find? (fun y => decide (y.id = x.id)) = some x := by
  induction m using dedup_first_by_id.induct with
  | case1 => rw [dedup_first_nil] at hx; cases hx
  | case2 e rest ih =>
    rw [dedup_first_cons] at hx
    cases List.mem_cons.mp hx with
    | inl h =>
      subst h
      exact List.find?_cons_of_pos _ (by simp)
    | inr h =>
      have hxid : decide (x.id ≠ e.id) = true := by
        have hmem := List.mem_of_mem_filter (dedup_first_subset _ h)
        have := List.of_mem_filter (dedup_first_subset _ h)
        simpa using this
      have hne : x.id ≠ e.id := by simpa using hxid
      rw [List.find?_cons_of_neg _ (by simp; exact fun hh => hne hh.symm)]
      rw [← find?_filter_of_imp (fun y => decide (y.id = x.id))
        (fun y => decide (y.id ≠ e.id)) rest
        (fun y hy => by
          simp at hy
          simp [hy, hne])]
      exact ih h

theorem histIndex_eq_find (l : List HistEntry) (i : String) :
    histIndex l i = l.reverse.find? (fun e => decide (e.id = i)) := by
  induction l with
  | nil => rfl
  | cons e rest ih =>
    rw [List.reverse_cons, List.find?_append]
    show (match histIndex rest i with
      | some x => some x
      | none => if e.id = i then some e else none) = _
    rw [ih]
    cases hfind : rest.reverse.find? (fun e => decide (e.id = i)) with
    | some x => rfl
    | none =>
      show (if e.id = i then some e else none) = Option.or none _
      by_cases he : e.id = i
      · rw [if_pos he]
        have : List.find? (fun x => decide (x.id = i)) [e] = some e :=
          List.find?_cons_of_pos _ (by simp [he])
        rw [this]
        rfl
      · rw [if_neg he]
        have : List.find? (fun x => decide (x.id = i)) [e] = none := by
          rw [List.find?_cons_of_neg _ (by simp [he])]
          rfl
        rw [this]
        rfl

theorem added_entries_go_nil (l : List HistEntry) :
    ∀ (counts : HistEntry → Nat), (∀ e, l.count e ≤ counts e) →
      added_entries_go counts l = [] := by
  induction l with
  | nil => intro counts _; rfl
  | cons current rest ih =>
    intro counts h
    have hcur := h current
    rw [List.count_cons] at hcur
    simp at hcur
    have hc : 0 < counts current := by omega
    rw [added_entries_go, if_pos hc]
    apply ih
    intro e
    have he := h e
    rw [List.count_cons] at he
    by_cases heq : e = current
    · subst heq
      simp at he
      simp
      omega
    · have : (current == e) = false := by
        simp
        exact fun hh => heq hh.symm
      rw [this] at he
      simp at he
      simp [heq]
      omega

theorem added_entries_self (l : List HistEntry) : added_entries l l = [] :=
  added_entries_go_nil l _ (fun _ => le_refl _)

theorem added_entries_go_subset (l : List HistEntry) :
    ∀ (counts : HistEntry → Nat), added_entries_go counts l ⊆ l := by
  induction l with
  | nil => intro counts; rw [added_entries_go]; exact fun x hx => hx
  | cons current rest ih =>
    intro counts
    rw [added_entries_go]
    by_cases hc : 0 < counts current
    · rw [if_pos hc]
      exact fun x hx => List.mem_cons_of_mem _ (ih _ hx)
    · rw [if_neg hc]
      intro x hx
      cases List.mem_cons.mp hx with
      | inl h => exact h ▸ List.mem_cons_self _ _
      | inr h => exact List.mem_cons_of_mem _ (ih _ h)

theorem added_entries_subset (b a : List HistEntry) : added_entries b a ⊆ a :=
  added_entries_go_subset a _

theorem mem_of_getLast?_eq_some {α : Type} :
    ∀ {l : List α} {a : α}, l.getLast? = some a → a ∈ l := by
  intro l
  induction l with
  | nil => intro a h; cases h
  | cons x xs ih =>
    intro a h
    cases xs with
    | nil =>
      simp [List.getLast?] at h
      simp [h]
    | cons y ys =>
      rw [List.getLast?_cons_cons] at h
      exact List.mem_cons_of_mem _ (ih h)

theorem mem_of_detect_added (before : HistMap) (b a : List HistEntry)
    (e : HistEntry) (h : detect_latest_added_entry before b a = some e) : e ∈ a := by
  unfold detect_latest_added_entry at h
  by_cases hemp : (added_entries b a).isEmpty
  · simp [hemp] at h
  · simp only [hemp, Bool.false_eq_true, if_false] at h
    have : e ∈ added_entries b a := by
      cases hfind : detect_added_loop before (added_entries b a).reverse with
      | some x =>
        rw [hfind] at h
        cases h
        rw [detect_added_loop_eq] at hfind
        exact List.mem_reverse.mp (List.mem_of_find?_eq_some hfind)
      | none =>
        rw [hfind] at h
        exact mem_of_getLast?_eq_some h
    exact added_entries_subset b a this

theorem mem_of_detect_changed_loop (before : HistMap) :
    ∀ (m : List HistEntry) (seen : List String) (e : HistEntry),
      detect_changed_loop before seen m = some e → e ∈ m := by
  intro m
  induction m with
  | nil => intro seen e h; cases h
  | cons current rest ih =>
    intro seen e h
    rw [detect_changed_loop] at h
    by_cases h1 : memStr current.id seen = true
    · rw [if_pos h1] at h
      exact List.mem_cons_of_mem _ (ih seen e h)
    · rw [if_neg h1] at h
      by_cases h2 : entry_is_new_or_differs before current = true
      · rw [if_pos h2] at h
        cases h
        exact List.mem_cons_self _ _
      · rw [if_neg h2] at h
        exact List.mem_cons_of_mem _ (ih (current.id :: seen) e h)

theorem detect_changed_latest_eq_spec (before : HistMap) (after_ordered : List HistEntry) :
    detect_changed_latest before after_ordered = changed_latest_spec before after_ordered := by
  unfold detect_changed_latest changed_latest_spec
  rw [detect_changed_loop_eq]
  congr 2
  have : ∀ x ∈ after_ordered.reverse,
      (fun e : HistEntry => !memStr e.id ([] : List String)) x = (fun _ => true) x :=
    fun x _ => rfl
  rw [List.filter_congr this, List.filter_true]

theorem detect_changed_latest_self (l : List HistEntry) :
    detect_changed_latest (histIndex l) l = none := by
  rw [detect_changed_latest_eq_spec]
  unfold changed_latest_spec
  rw [List.find?_eq_none]
  intro x hx
  have hfind := mem_dedup_first_find _ _ hx
  have hidx : histIndex l x.id = some x := by
    rw [histIndex_eq_find]
    exact hfind
  simp [spec_absent_or_pair_differs, hidx]

theorem detect_latest_added_entry_none (before : HistMap) (b a : List HistEntry)
    (h : added_entries b a = []) : detect_latest_added_entry before b a = none := by
  unfold detect_latest_added_entry
  simp [h]

theorem parse_hist_line_nonblank (line : String) (e : HistEntry)
    (h : parse_hist_line line = some e) : str_is_empty (rust_trim line) = false := by
  unfold parse_hist_line at h
  by_cases hb : str_is_empty (rust_trim line) = true
  · rw [if_pos hb] at h
    cases h
  · simpa using hb

theorem is_effective_integer_intCast (n : ℤ) :
    is_effective_integer ((n : ℤ) : ℚ) = true := by
  simp [is_effective_integer, round_intCast, f64_tolerance]

theorem integer_episode_label_of_nonneg (value : ℚ) (hv : ¬value < 0) :
    integer_episode_label value = some (toString (round value : ℤ)) := by
  unfold integer_episode_label
  rw [if_neg hv]
  simp [is_effective_integer_intCast]

theorem integer_episode_label_of_neg (value : ℚ) (hv : value < 0) :
    integer_episode_label value = none := by
  unfold integer_episode_label
  rw [if_pos hv]

theorem ordinal_match_eq (last_episode : String) (episode_list : Option (List String)) :
    episode_list.bind (fun eps =>
        (episode_ordinal_from_list last_episode eps).map (fun n => (eps, n)))
      = (catalog_match episode_list last_episode).map (fun p => (p.1, p.2 + 1)) := by
  cases episode_list with
  | none => rfl
  | some eps =>
    show (episode_ordinal_from_list last_episode eps).map (fun n => (eps, n))
      = ((episode_position eps last_episode).map (fun idx => (eps, idx))).map
          (fun p => (p.1, p.2 + 1))
    unfold episode_ordinal_from_list
    cases episode_position eps last_episode <;> rfl

theorem parse_hist_lines_count (lines : List String) :
    (parse_hist_lines lines).2 + (parse_hist_lines lines).1.length
      = (lines.filter (fun l => !str_is_empty (rust_trim l))).length := by
  induction lines with
  | nil => rfl
  | cons line rest ih =>
    rw [parse_hist_lines]
    cases hp : parse_hist_line line with
    | some entry =>
      have hb := parse_hist_line_nonblank line entry hp
      rw [@List.filter_cons_of_pos _ (fun l => !str_is_empty (rust_trim l)) line rest
        (by simp [hb])]
      simp only [List.length_cons]
      omega
    | none =>
      by_cases hb : str_is_empty (rust_trim line) = true
      · rw [if_pos hb,
          @List.filter_cons_of_neg _ (fun l => !str_is_empty (rust_trim l)) line rest
            (by simp [hb])]
        exact ih
      · rw [if_neg hb,
          @List.filter_cons_of_pos _ (fun l => !str_is_empty (rust_trim l)) line rest
            (by simp [hb])]
        simp only [List.length_cons]
        omega

theorem detect_latest_added_entry_isSome (before : HistMap) (b a : List HistEntry)
    (h : added_entries b a ≠ []) :
    (detect_latest_added_entry before b a).isSome = true := by
  unfold detect_latest_added_entry
  have hemp : (added_entries b a).isEmpty = false := List.isEmpty_eq_false.mpr h
  simp only [hemp, Bool.false_eq_true, if_false]
  cases hfind : detect_added_loop before (added_entries b a).reverse with
  | some e => rfl
  | none =>
    show ((added_entries b a).getLast?).isSome = true
    exact List.getLast?_isSome.mpr h

/-! ## Claim theorems -/

/-- C3: for snapshot pairs whose order-preserving multiset difference is
non-empty, added-entry detection scans the added list from the end backward
and returns the first added entry whose show_id is absent from the before
by-id map or whose (episode, title) pair differs from that map's record;
when every added entry duplicates its prior recorded state, it returns the
last added entry. -/
theorem claim_c3_added_entry_selection (before : HistMap) (b a : List HistEntry)
    (h : added_entries b a ≠ []) :
    detect_latest_added_entry before b a
      = latest_added_spec before (added_entries b a) := by
  simp only [detect_latest_added_entry, latest_added_spec]
  rw [detect_added_loop_eq]
  have hemp : (added_entries b a).isEmpty = false := List.isEmpty_eq_false.mpr h
  simp [hemp]

/-- Witness for C3 at a concrete pair with one appended entry. -/
theorem claim_c3_witness :
    added_entries [] [⟨"1", "id-0", "T"⟩] ≠ []
    ∧ detect_latest_added_entry (histIndex []) [] [⟨"1", "id-0", "T"⟩]
        = latest_added_spec (histIndex []) (added_entries [] [⟨"1", "id-0", "T"⟩]) :=
  ⟨by decide,
    claim_c3_added_entry_selection (histIndex []) [] [⟨"1", "id-0", "T"⟩] (by decide)⟩

/-- C4: when no entries were added, watch-event detection equals the
changed-latest fallback, which scans the after entries from the end
backward skipping already visited show_ids and returns the first entry
whose recorded state is absent or different; and the fallback runs only in
the no-entries-added case, since added-entry detection always produces a
result otherwise. -/
theorem claim_c4_changed_latest_fallback (before : HistMap) (b a : List HistEntry) :
    (added_entries b a = [] →
      detect_latest_watch_event before b a = changed_latest_spec before a
      ∧ detect_changed_latest before a = changed_latest_spec before a)
    ∧ (added_entries b a ≠ [] →
      detect_latest_watch_event before b a = detect_latest_added_entry before b a
      ∧ (detect_latest_added_entry before b a).isSome = true) := by
  constructor
  · intro h
    constructor
    · unfold detect_latest_watch_event
      rw [detect_latest_added_entry_none before b a h]
      show detect_changed_latest before a = changed_latest_spec before a
      exact detect_changed_latest_eq_spec before a
    · exact detect_changed_latest_eq_spec before a
  · intro h
    constructor
    · cases hd : detect_latest_added_entry before b a with
      | some e =>
        unfold detect_latest_watch_event
        rw [hd]
      | none =>
        have hs := detect_latest_added_entry_isSome before b a h
        rw [hd] at hs
        cases hs
    · exact detect_latest_added_entry_isSome before b a h

/-- Witness for C4 at a concrete rewritten-in-place pair. -/
theorem claim_c4_witness :
    added_entries [⟨"1", "id-0", "T"⟩] [⟨"2", "id-0", "T"⟩] ≠ []
    ∧ added_entries [⟨"1", "id-0", "T"⟩] [⟨"1", "id-0", "T"⟩] = []
    ∧ detect_latest_watch_event (histIndex [⟨"1", "id-0", "T"⟩])
        [⟨"1", "id-0", "T"⟩] [⟨"1", "id-0", "T"⟩]
        = changed_latest_spec (histIndex [⟨"1", "id-0", "T"⟩]) [⟨"1", "id-0", "T"⟩] :=
  ⟨by decide, by decide,
    ((claim_c4_changed_latest_fallback (histIndex [⟨"1", "id-0", "T"⟩])
      [⟨"1", "id-0", "T"⟩] [⟨"1", "id-0", "T"⟩]).1 (by decide)).1⟩

/-- C5: for snapshots whose by-id map is the last-occurrence index of the
ordered entries, detection over two identical ordered sequences returns
none, and `touched` is false on any pair of equal signatures, including two
absent ones. -/
theorem claim_c5_identical_snapshots :
    (∀ l : List HistEntry, detect_latest_watch_event (histIndex l) l l = none)
    ∧ (∀ s : Option HistFileSig, history_file_touched s s = false) := by
  constructor
  · intro l
    unfold detect_latest_watch_event
    rw [detect_latest_added_entry_none _ _ _ (added_entries_self l)]
    show detect_changed_latest (histIndex l) l = none
    exact detect_changed_latest_self l
  · intro s
    simp [history_file_touched]

/-- C9: for every ledger text, the skipped-line counter plus the number of
parsed entries equals the number of non-blank lines. -/
theorem claim_c9_line_accounting (raw : String) :
    (parse_hist_map raw).skipped_lines + (parse_hist_map raw).ordered_entries.length
      = ((rust_lines raw).filter (fun l => !str_is_empty (rust_trim l))).length := by
  unfold parse_hist_map
  exact parse_hist_lines_count (rust_lines raw)

/-- C10: every entry produced by added-entry detection, by the
changed-latest fallback, or by log-key matching is an element of the after
snapshot's ordered entry sequence. -/
theorem claim_c10_detection_membership (before : HistMap) (b a : List HistEntry)
    (msg : String) (e : HistEntry)
    (h : detect_latest_added_entry before b a = some e
      ∨ detect_changed_latest before a = some e
      ∨ detect_log_matched_entry msg a = some e) :
    e ∈ a := by
  rcases h with h | h | h
  · exact mem_of_detect_added before b a e h
  · unfold detect_changed_latest at h
    exact List.mem_reverse.mp (mem_of_detect_changed_loop before a.reverse [] e h)
  · unfold detect_log_matched_entry at h
    exact List.mem_reverse.mp (List.mem_of_find?_eq_some h)

/-- Witness for C10 through the changed-latest branch. -/
theorem claim_c10_witness :
    detect_changed_latest (histIndex []) [⟨"1", "id-0", "T"⟩] = some ⟨"1", "id-0", "T"⟩
    ∧ (⟨"1", "id-0", "T"⟩ : HistEntry) ∈ [(⟨"1", "id-0", "T"⟩ : HistEntry)] :=
  ⟨by decide,
    claim_c10_detection_membership (histIndex []) [] [⟨"1", "id-0", "T"⟩] "" _
      (Or.inr (Or.inl (by decide)))⟩

/-- Numeric value of the trimmed label "13.5" as the parser builds it. -/
theorem parse_13_5 :
    parse_episode_f64 (rust_trim "13.5")
      = some (((13 : ℕ) : ℚ) + ((5 : ℕ) : ℚ) / ((10 : ℚ) ^ (1 : ℕ))) := rfl

theorem labels_match_0_13_5 : episode_labels_match "0" "13.5" = false := by
  unfold episode_labels_match
  rw [if_neg (by decide)]
  have ha : parse_episode_f64 (rust_trim "0") = some (((0 : ℕ) : ℚ)) := rfl
  simp only [ha, parse_13_5, decide_eq_false_iff_not, f64_tolerance]
  rw [abs_sub_lt_iff]
  push_cast
  norm_num

theorem labels_match_1_13_5 : episode_labels_match "1" "13.5" = false := by
  unfold episode_labels_match
  rw [if_neg (by decide)]
  have ha : parse_episode_f64 (rust_trim "1") = some (((1 : ℕ) : ℚ)) := rfl
  simp only [ha, parse_13_5, decide_eq_false_iff_not, f64_tolerance]
  rw [abs_sub_lt_iff]
  push_cast
  norm_num

theorem labels_match_2_13_5 : episode_labels_match "2" "13.5" = false := by
  unfold episode_labels_match
  rw [if_neg (by decide)]
  have ha : parse_episode_f64 (rust_trim "2") = some (((2 : ℕ) : ℚ)) := rfl
  simp only [ha, parse_13_5, decide_eq_false_iff_not, f64_tolerance]
  rw [abs_sub_lt_iff]
  push_cast
  norm_num

theorem labels_match_13_13_5 : episode_labels_match "13" "13.5" = false := by
  unfold episode_labels_match
  rw [if_neg (by decide)]
  have ha : parse_episode_f64 (rust_trim "13") = some (((13 : ℕ) : ℚ)) := rfl
  simp only [ha, parse_13_5, decide_eq_false_iff_not, f64_tolerance]
  rw [abs_sub_lt_iff]
  push_cast
  norm_num

theorem labels_match_13_5_self : episode_labels_match "13.5" "13.5" = true := by
  unfold episode_labels_match
  rw [if_pos rfl]

theorem position_13_5 :
    episode_position ["0", "1", "2", "13", "13.5"] "13.5" = some 4 := by
  unfold episode_position
  simp [List.findIdx?_cons, labels_match_0_13_5, labels_match_1_13_5,
    labels_match_2_13_5, labels_match_13_13_5, labels_match_13_5_self]

/-- Concrete catalog example of C6. -/
theorem previous_target_13_5_catalog :
    previous_target_episode "13.5" (some ["0", "1", "2", "13", "13.5"]) = some "13" := by
  unfold previous_target_episode
  have hcm : catalog_match (some ["0", "1", "2", "13", "13.5"]) "13.5"
      = some (["0", "1", "2", "13", "13.5"], 4) := by
    unfold catalog_match
    simp [position_13_5]
  simp only [hcm]
  rw [if_pos (by norm_num)]
  rfl

/-- Concrete zero example of C6. -/
theorem previous_target_0_none : previous_target_episode "0" none = none := by
  unfold previous_target_episode
  have hcm : catalog_match none "0" = none := rfl
  simp only [hcm]
  have hp : parse_episode_f64 "0" = some (((0 : ℕ) : ℚ)) := rfl
  simp only [hp]
  rw [if_pos (by norm_num)]

/-- Concrete integer example of C6. -/
theorem previous_target_5_none : previous_target_episode "5" none = some "4" := by
  unfold previous_target_episode
  have hcm : catalog_match none "5" = none := rfl
  simp only [hcm]
  have hp : parse_episode_f64 "5" = some (((5 : ℕ) : ℚ)) := rfl
  simp only [hp]
  have h5 : ((5 : ℕ) : ℚ) = 5 := by norm_num
  rw [h5, if_neg (by norm_num)]
  have hie : is_effective_integer (5 : ℚ) = true := by
    have hr : round (5 : ℚ) = 5 := by
      rw [round_eq]
      norm_num [Int.floor_eq_iff]
    unfold is_effective_integer
    rw [hr, decide_eq_true_eq, abs_sub_lt_iff]
    push_cast
    norm_num [f64_tolerance]
  rw [if_pos hie, integer_episode_label_of_nonneg _ (by norm_num)]
  have hr4 : round ((5 : ℚ) - 1) = 4 := by
    rw [round_eq]
    norm_num [Int.floor_eq_iff]
  rw [hr4]
  rfl

/-- C6 counterexample: the label "0.9999999" parses as a positive number,
yet previous_target with no catalog returns none; the no-catalog row of the
claim predicts an integer-string result there, since its only none
conditions are a non-numeric or nonpositive label. -/
theorem claim_c6_counterexample :
    previous_target_episode "0.9999999" none = none
    ∧ parse_episode_f64 "0.9999999" = some ((9999999 : ℚ) / 10000000)
    ∧ (0 : ℚ) < (9999999 : ℚ) / 10000000 := by
  have hp : parse_episode_f64 "0.9999999"
      = some (((0 : ℕ) : ℚ) + ((9999999 : ℕ) : ℚ) / ((10 : ℚ) ^ (7 : ℕ))) := rfl
  have hq : (((0 : ℕ) : ℚ) + ((9999999 : ℕ) : ℚ) / ((10 : ℚ) ^ (7 : ℕ)))
      = (9999999 : ℚ) / 10000000 := by norm_num
  refine ⟨?_, by rw [hp, hq], by norm_num⟩
  unfold previous_target_episode
  have hcm : catalog_match none "0.9999999" = none := rfl
  simp only [hcm, hp, hq]
  rw [if_neg (by norm_num)]
  have hie : is_effective_integer ((9999999 : ℚ) / 10000000) = true := by
    have hr : round ((9999999 : ℚ) / 10000000) = 1 := by
      rw [round_eq]
      norm_num [Int.floor_eq_iff]
    unfold is_effective_integer
    rw [hr, decide_eq_true_eq, abs_sub_lt_iff]
    push_cast
    norm_num [f64_tolerance]
  rw [if_pos hie]
  exact integer_episode_label_of_neg _ (by norm_num)

/-- C6 (amended): previous_target follows the catalog row as claimed, and
without a catalog match it yields: none on a non-numeric or nonpositive
label; for a value within 1e-6 of an integer, that integer minus one when
the value is at least 1 and none when it is below 1; and the floor for
other values. The three concrete examples of the claim hold. -/
theorem claim_c6_amended_previous_target :
    (∀ (label : String) (lst : Option (List String)),
      previous_target_episode label lst = previous_target_spec label lst)
    ∧ previous_target_episode "13.5" (some ["0", "1", "2", "13", "13.5"]) = some "13"
    ∧ previous_target_episode "0" none = none
    ∧ previous_target_episode "5" none = some "4" := by
  refine ⟨?_, previous_target_13_5_catalog, previous_target_0_none,
    previous_target_5_none⟩
  intro label lst
  unfold previous_target_episode previous_target_spec
  rw [ordinal_match_eq]
  cases hm : catalog_match lst label with
  | some p =>
    obtain ⟨eps, idx⟩ := p
    simp only [Option.map_some']
    by_cases hidx : 0 < idx
    · rw [if_pos hidx, if_pos (by omega : 1 < idx + 1)]
      have harith : idx + 1 - 2 = idx - 1 := by omega
      rw [harith]
    · rw [if_neg hidx, if_neg (by omega : ¬1 < idx + 1)]
  | none =>
    simp only [Option.map_none']
    cases hp : parse_episode_f64 label with
    | none => rfl
    | some q =>
      show (if q ≤ 0 then none
          else if is_effective_integer q = true then integer_episode_label (q - 1)
          else integer_episode_label ((⌊q⌋ : ℤ) : ℚ))
        = (if q ≤ 0 then none
          else if |q - ((round q : ℤ) : ℚ)| < f64_tolerance then
            (if 1 ≤ q then some (toString ((round q : ℤ) - 1)) else none)
          else some (toString (⌊q⌋ : ℤ)))
      by_cases h0 : q ≤ 0
      · rw [if_pos h0, if_pos h0]
      · rw [if_neg h0, if_neg h0]
        by_cases hint : |q - ((round q : ℤ) : ℚ)| < f64_tolerance
        · have hie : is_effective_integer q = true := by
            simp [is_effective_integer, hint]
          rw [if_pos hie, if_pos hint]
          by_cases h1 : (1 : ℚ) ≤ q
          · rw [if_pos h1,
              integer_episode_label_of_nonneg _ (by linarith), round_sub_one]
          · rw [if_neg h1, integer_episode_label_of_neg _ (by linarith)]
        · have hie : is_effective_integer q = false := by
            simp [is_effective_integer, hint]
          rw [if_neg (by simp [hie]), if_neg hint]
          have h2 : (0 : ℤ) ≤ ⌊q⌋ :=
            Int.le_floor.mpr (by push_cast; linarith [not_le.mp h0])
          have hfl : ¬(((⌊q⌋ : ℤ) : ℚ) < 0) := not_lt.mpr (by exact_mod_cast h2)
          rw [integer_episode_label_of_nonneg _ hfl, round_intCast]

/-- C7: previous_seed follows the catalog row (entry at ordinal minus 3
when the ordinal exceeds 2, else none, falling through to the numeric rule
when the label does not occur in the catalog), and without a match yields
the integer value of previous_target minus one when that value exceeds 1,
else none. -/
theorem claim_c7_previous_seed : ∀ (label : String) (lst : Option (List String)),
    previous_seed_episode label lst = previous_seed_spec label lst := by
  intro label lst
  unfold previous_seed_episode previous_seed_spec
  rw [ordinal_match_eq]
  cases hm : catalog_match lst label with
  | some p =>
    obtain ⟨eps, idx⟩ := p
    simp only [Option.map_some']
    by_cases hidx : 1 < idx
    · rw [if_pos hidx, if_pos (by omega : 2 < idx + 1)]
      have harith : idx + 1 - 3 = idx - 2 := by omega
      rw [harith]
    · rw [if_neg hidx, if_neg (by omega : ¬2 < idx + 1)]
  | none =>
    simp only [Option.map_none']
    cases ht : previous_target_episode label none with
    | none => rfl
    | some target =>
      show (match parse_episode_f64 target with
          | none => none
          | some target_value =>
            if 1 < target_value then integer_episode_label (target_value - 1)
            else none)
        = (match parse_episode_f64 target with
          | none => none
          | some tv =>
            if 1 < tv then some (toString ((round tv : ℤ) - 1)) else none)
      cases hv : parse_episode_f64 target with
      | none => rfl
      | some tv =>
        show (if 1 < tv then integer_episode_label (tv - 1) else none)
          = (if 1 < tv then some (toString ((round tv : ℤ) - 1)) else none)
        by_cases h1 : 1 < tv
        · rw [if_pos h1, if_pos h1,
            integer_episode_label_of_nonneg _ (by linarith), round_sub_one]
        · rw [if_neg h1, if_neg h1]

/-- C8: has_next follows the catalog when the label matches — a next
catalog index must exist, overriding the numeric hint, as the concrete
25-of-27 example shows (24 filler labels and "25" as the last element) —
and otherwise compares the parsed integer label with the hint, defaulting
to true when either is unavailable. -/
theorem claim_c8_has_next :
    (∀ (label : String) (total : Option Nat) (lst : Option (List String)),
      has_next_episode label total lst = has_next_spec label total lst)
    ∧ has_next_episode "25" (some 27)
        (some ["x1", "x2", "x3", "x4", "x5", "x6", "x7", "x8", "x9", "x10", "x11",
          "x12", "x13", "x14", "x15", "x16", "x17", "x18", "x19", "x20", "x21",
          "x22", "x23", "x24", "25"])
        = false := by
  constructor
  · intro label total lst
    unfold has_next_episode has_next_spec
    rw [ordinal_match_eq]
    cases hm : catalog_match lst label with
    | some p => rfl
    | none => rfl
  · decide

/-- C1 counterexample: with the foreground-group query failing (result -1)
and the plain launch succeeding, the operation returns an ok status and a
child is spawned — the operation neither fails nor refrains from spawning,
against the claim. -/
theorem claim_c1_counterexample :
    (⟨-1, true, Except.ok ⟨true⟩, true, Except.ok ⟨true⟩⟩
        : SessionEnv).tcgetpgrp_pgrp = -1
    ∧ (run_interactive_cmd
        ⟨-1, true, Except.ok ⟨true⟩, true, Except.ok ⟨true⟩⟩).result
      = Except.ok ⟨true⟩
    ∧ (run_interactive_cmd
        ⟨-1, true, Except.ok ⟨true⟩, true, Except.ok ⟨true⟩⟩).child_spawned
      = true :=
  ⟨rfl, rfl, rfl⟩

/-- C1 (amended): when the foreground process group cannot be determined,
`run_interactive_cmd` degrades to a plain synchronous wait — the result is
exactly the `cmd.status()` outcome with launch-failure context, a child is
spawned exactly when that plain launch succeeds, and no terminal handoff is
attempted. -/
theorem claim_c1_amended_degrade : ∀ env : SessionEnv,
    env.tcgetpgrp_pgrp = -1 →
    run_interactive_cmd env
      = ⟨run_plain_status env,
          (match env.status_result with
            | Except.ok _ => true
            | Except.error _ => false),
          false⟩ := by
  intro env h
  unfold run_interactive_cmd
  rw [if_pos h]

/-- Witness for the amended C1 at a concrete failing launch. -/
theorem claim_c1_witness :
    run_interactive_cmd
        ⟨-1, true, Except.error "boom", true, Except.ok ⟨true⟩⟩
      = ⟨run_plain_status ⟨-1, true, Except.error "boom", true, Except.ok ⟨true⟩⟩,
          false, false⟩ :=
  claim_c1_amended_degrade
    ⟨-1, true, Except.error "boom", true, Except.ok ⟨true⟩⟩ rfl

/-- C2 counterexample: in the interactive search run, a child exit with an
unsuccessful status still leads to a progress-store write when the history
diff detects a watch event — against the claim that an unsuccessful child
exit leaves the stored row unchanged. -/
theorem claim_c2_counterexample :
    (⟨none, [], [], Except.ok ⟨false⟩, [⟨"1", "id-0", "T"⟩], [], none, none, none⟩
        : SearchEnv).run_result = Except.ok ⟨false⟩
    ∧ (run_ani_cli_search
        ⟨none, [], [], Except.ok ⟨false⟩, [⟨"1", "id-0", "T"⟩], [], none, none,
          none⟩).2
      = some ⟨"id-0", "T", "1"⟩ :=
  ⟨rfl, rfl⟩

/-- C2 (amended): for the four TUI playback actions, a store write happens
exactly on a successful outcome, storing the outcome episode or, when none
was read back, the stored one; a failed playback call or an unsuccessful
outcome writes nothing. For the interactive search run, a spawn or wait
failure writes nothing, and given any exit status — successful or not —
the write happens exactly when the history diff, or the log fallback when
the diff finds nothing, yields an entry, storing that entry's fields. -/
theorem claim_c2_amended_upsert_gating :
    (∀ (item : SeenEntry) (action : TuiAction) (e : String),
      run_selected_action item action (Except.error e) = Except.error e)
    ∧ (∀ (item : SeenEntry) (action : TuiAction) (o : PlaybackOutcome),
      o.success = false →
      run_selected_action item action (Except.ok o)
        = Except.ok ("Playback failed/interrupted. Progress not updated.", none))
    ∧ (∀ (item : SeenEntry) (action : TuiAction) (o : PlaybackOutcome),
      o.success = true →
      run_selected_action item action (Except.ok o)
        = Except.ok (action_success_message action item
            (o.final_episode.getD item.last_episode),
          some ⟨item.ani_id, item.title, o.final_episode.getD item.last_episode⟩))
    ∧ (∀ (env : SearchEnv) (err : String),
      env.run_result = Except.error err → (run_ani_cli_search env).2 = none)
    ∧ (∀ (env : SearchEnv) (status : ExitStatusM),
      env.run_result = Except.ok status →
      (run_ani_cli_search env).2
        = (match detect_latest_watch_event (histIndex env.before_ordered)
              env.before_ordered env.after_ordered with
          | some e => some ⟨e.id, e.title, e.ep⟩
          | none => env.log_entry.map (fun e => ⟨e.id, e.title, e.ep⟩))) := by
  refine ⟨?_, ?_, ?_, ?_, ?_⟩
  · intro item action e
    rfl
  · intro item action o h
    show (if o.success = true then
        Except.ok (action_success_message action item
            (o.final_episode.getD item.last_episode),
          some (UpsertRecord.mk item.ani_id item.title
            (o.final_episode.getD item.last_episode)))
      else Except.ok ("Playback failed/interrupted. Progress not updated.", none))
      = Except.ok ("Playback failed/interrupted. Progress not updated.", none)
    rw [if_neg (by simp [h])]
  · intro item action o h
    show (if o.success = true then
        Except.ok (action_success_message action item
            (o.final_episode.getD item.last_episode),
          some (UpsertRecord.mk item.ani_id item.title
            (o.final_episode.getD item.last_episode)))
      else Except.ok ("Playback failed/interrupted. Progress not updated.", none))
      = Except.ok (action_success_message action item
            (o.final_episode.getD item.last_episode),
          some ⟨item.ani_id, item.title, o.final_episode.getD item.last_episode⟩)
    rw [if_pos h]
  · intro env err h
    simp only [run_ani_cli_search, h]
  · intro env status h
    cases hdet : detect_latest_watch_event (histIndex env.before_ordered)
        env.before_ordered env.after_ordered with
    | some e =>
      simp only [run_ani_cli_search, h, hdet]
    | none =>
      cases hlog : env.log_entry with
      | some le =>
        simp only [run_ani_cli_search, h, hdet, hlog, Option.map_some']
      | none =>
        simp only [run_ani_cli_search, h, hdet, hlog, Option.map_none']
        cases hc : (history_file_touched env.before_sig env.after_sig
            && decide (env.before_ordered ≠ env.after_ordered)) <;> simp [hc]

/-- Witness for the amended C2 on a concrete spawn failure. -/
theorem claim_c2_witness :
    (run_ani_cli_search
        ⟨none, [], [], Except.error "spawn failed", [], [], none, none, none⟩).2
      = none :=
  claim_c2_amended_upsert_gating.2.2.2.1
    ⟨none, [], [], Except.error "spawn failed", [], [], none, none, none⟩
    "spawn failed" rfl

end AniTrack
